import Mathlib

/-!
Shallow embedding of `pytest_gee/utils.py`.

The module orchestrates calls against a remote Earth-Engine-style asset
store.  The remote hierarchy is modelled as a forest of rose trees whose
nodes carry the asset record (`type`, `name`, `id`) returned by
`ee.data.listAssets`; remote side effects (folder creation, export-task
starts, deletions) are modelled as explicit event traces returned next to
the function results, and exceptions as `Option`/`Except` error values.
Time inside the polling loop of `wait` advances by 5 seconds per
iteration (the `time.sleep(5)` in the loop body); all other operations
take zero time, and the initial 5-second sleep happens before
`start_time` is taken, so it does not count towards the timeout.
-/

/-- An asset record as returned by `ee.data.listAssets` / `ee.data.getAsset`:
a dict with keys `type`, `name` and `id`. -/
structure AssetRecord where
  type : String
  name : String
  id : String
deriving DecidableEq

/-- A node of the remote asset hierarchy: its own record plus the assets
listed under it.  `ee.data.listAssets ({parent := n})` for a node `n`
returns the records of `n`'s children. -/
inductive ATree where
  | mk (info : AssetRecord) (children : List ATree)

/-- The record of a node. -/
def ATree.info : ATree → AssetRecord
  | .mk i _ => i

/-- The children of a node. -/
def ATree.children : ATree → List ATree
  | .mk _ c => c

/-- The body of `get_assets` (`utils.py` lines 77-82): `_recursive_get`.
For each asset listed under the current parent it appends the record to
the accumulator and, when the asset is a FOLDER, recurses into it before
moving on to the next sibling.  The argument is the child list of the
current parent, which is what `ee.data.listAssets` returns for it. -/
def recursiveGet : List ATree → List AssetRecord → List AssetRecord
  | [], acc => acc
  | ATree.mk info children :: ts, acc =>
      let acc1 := acc ++ [info]
      let acc2 := if info.type == "FOLDER" then recursiveGet children acc1 else acc1
      recursiveGet ts acc2

/-- `ee.data.getAsset` resolved against the modelled hierarchy: find the
node whose full path (`id`) is the requested one.  `none` models the
`ee.EEException` raised for a missing asset. -/
def findNode : List ATree → String → Option ATree
  | [], _ => none
  | ATree.mk info children :: ts, key =>
      if info.id == key then some (ATree.mk info children)
      else
        match findNode children key with
        | some r => some r
        | none => findNode ts key

/-- `get_assets` (`utils.py` lines 63-84): list every nested asset under
`folder`.  `none` models the exception raised when the folder does not
exist. -/
def get_assets (st : List ATree) (folder : String) : Option (List AssetRecord) :=
  (findNode st folder).map (fun t => recursiveGet t.children [])

/-- Modelled from the spec (§4.2 Asset Lister): the flat sequence of asset
records "in discovery order (parent before children, siblings in listing
order)" — a plain depth-first flattening, recursing only below
FOLDER-typed entries.  Used as the specification side of claim C8. -/
def dfsList : List ATree → List AssetRecord
  | [] => []
  | ATree.mk info children :: ts =>
      info :: ((if info.type == "FOLDER" then dfsList children else []) ++ dfsList ts)

/-- Python's `s.split("/")` on the character list: cut at every `/`.
`[] ↦ [[]]` matches `"".split("/") == [""]`. -/
def splitSegs : List Char → List (List Char)
  | [] => [[]]
  | c :: cs =>
      if c = '/' then [] :: splitSegs cs
      else
        match splitSegs cs with
        | s :: ss => (c :: s) :: ss
        | [] => [[c]]

/-- `len(asset["id"].split("/"))` (`utils.py` line 214): the nesting level
of an asset id, i.e. its number of `/`-separated path segments. -/
def depth (id : String) : Nat := (splitSegs id.toList).length

/-- One step of the grouping loop of `delete_assets` (lines 213-216): the
Python dict `assets_ordered` is an insertion-ordered association list;
`setdefault` appends a missing level at the end, and the asset is appended
to its level's bucket. -/
def addToLevels : List (Nat × List AssetRecord) → Nat → AssetRecord → List (Nat × List AssetRecord)
  | [], lvl, a => [(lvl, [a])]
  | (k, l) :: rest, lvl, a =>
      if k == lvl then (k, l ++ [a]) :: rest
      else (k, l) :: addToLevels rest lvl a

/-- The grouping loop of `delete_assets` (lines 212-216): bucket the listed
assets by nesting level of their `id`. -/
def groupLevels (l : List AssetRecord) : List (Nat × List AssetRecord) :=
  l.foldl (fun m a => addToLevels m (depth a.id) a) []

/-- Insertion step of `sorted(assets_ordered.items(), reverse=True)`
(line 219): place a bucket before the first bucket with a smaller-or-equal
key, yielding keys in decreasing order (keys are distinct). -/
def insertDesc (p : Nat × List AssetRecord) : List (Nat × List AssetRecord) → List (Nat × List AssetRecord)
  | [] => [p]
  | q :: rest => if q.1 ≤ p.1 then p :: q :: rest else q :: insertDesc p rest

/-- `dict(sorted(assets_ordered.items(), reverse=True))` (line 219): the
buckets reordered by decreasing nesting level. -/
def sortLevelsDesc (m : List (Nat × List AssetRecord)) : List (Nat × List AssetRecord) :=
  m.foldr insertDesc []

/-- The ordered sequence of ids passed to the local `delete` closure by
`delete_assets` (lines 205-225): for a FOLDER, the `name` of every listed
descendant, deepest levels first (inside a level, listing order), and the
initial `asset_id` last; for any other asset, just the `asset_id`. -/
def deletionList (t : ATree) (asset_id : String) : List String :=
  let toDelete :=
    if t.info.type == "FOLDER" then
      let asset_list := recursiveGet t.children []
      let assets_ordered := sortLevelsDesc (groupLevels asset_list)
      ((assets_ordered.map (fun p => p.2)).flatten).map (fun a => a.name)
    else []
  toDelete ++ [asset_id]

/-- The `delete` closure of `delete_assets` (lines 198-200): always record
the id in `output` (first component); call `ee.data.deleteAsset` on it
(second component, the trace of remote deletions) unless `dry_run`. -/
def deleteStep (dry_run : Bool) (acc : List String × List String) (id : String) :
    List String × List String :=
  (acc.1 ++ [id], if dry_run then acc.2 else acc.2 ++ [id])

/-- `delete_assets` (`utils.py` lines 172-227).  Returns the `output` list
together with the trace of ids actually passed to `ee.data.deleteAsset`;
`none` models the exception when `ee.data.getAsset` fails. -/
def delete_assets (st : List ATree) (asset_id : String) (dry_run : Bool) :
    Option (List String × List String) :=
  (findNode st asset_id).map (fun t => (deletionList t asset_id).foldl (deleteStep dry_run) ([], []))

/-- A remote task: its description and the state its `status()["state"]`
reports at the k-th poll of the waiting loop. -/
structure GEETask where
  description : String
  statuses : Nat → String

/-- `get_task` (`utils.py` lines 45-60): scan the user task list once and
return the first task with the requested description, else `None`. -/
def get_task (tasks : List GEETask) (task_descripsion : String) : Option GEETask :=
  tasks.find? (fun t => t.description == task_descripsion)

/-- The resolution step of `wait` (line 30): a `Task` argument is used as
is, a string is looked up with `get_task`. -/
def resolve_task (tasks : List GEETask) (task : GEETask ⊕ String) : Option GEETask :=
  match task with
  | Sum.inl t => some t
  | Sum.inr descr => get_task tasks descr

/-- The polling loop of `wait` (lines 36-42).  `k` polls have happened so
far, so the elapsed time at the condition check is `5 * k` seconds; the
loop continues while the state is not COMPLETED and the elapsed time is
below `timeout`, polls (`state = task.status()["state"]`), and breaks at
once on FAILED.  Returns the final state together with the total number of
polls performed. -/
def waitLoop (status : Nat → String) (timeout : Nat) (state : String) (k : Nat) :
    String × Nat :=
  if h : state ≠ "COMPLETED" ∧ 5 * k < timeout then
    let s := status k
    if s = "FAILED" then (s, k + 1)
    else waitLoop status timeout s (k + 1)
  else (state, k)
termination_by timeout - k
decreasing_by omega

/-- `wait` (`utils.py` lines 16-42): resolve the task (the `assert` on a
failed lookup is the `Except.error`), then run the polling loop from state
`"UNSUBMITTED"`. -/
def wait (tasks : List GEETask) (task : GEETask ⊕ String) (timeout : Nat) :
    Except String (String × Nat) :=
  match resolve_task tasks task with
  | none => Except.error "The task is not found"
  | some t => Except.ok (waitLoop t.statuses timeout "UNSUBMITTED" 0)

/-- The `ee.ComputedObject` variants distinguished by `export_asset`:
an `ee.FeatureCollection`, an `ee.Image`, or anything else. -/
inductive ComputedObject where
  | featureCollection
  | image
  | other
deriving DecidableEq

/-- Which export-task constructor was used: `ee.batch.Export.table.toAsset`
or `ee.batch.Export.image.toAsset`. -/
inductive ExportKind where
  | table
  | image
deriving DecidableEq

/-- Remote side effects performed by `export_asset` / `init_tree`. -/
inductive GEEEvent where
  | createFolder (path : String)
  | startExport (kind : ExportKind) (description : String) (assetId : String)
  | waitTask (description : String)
deriving DecidableEq

/-- `export_asset` (`utils.py` lines 87-123): build the export task for a
FeatureCollection or an Image, start it, wait on its description, and
return the asset path; any other object raises a `ValueError` before any
task is created.  Result: the trace of remote events, and the returned
path or the error. -/
def export_asset (object : ComputedObject) (asset_id : String) (description : String) :
    List GEEEvent × Except String String :=
  match object with
  | .featureCollection =>
      ([GEEEvent.startExport .table description asset_id, GEEEvent.waitTask description],
        Except.ok asset_id)
  | .image =>
      ([GEEEvent.startExport .image description asset_id, GEEEvent.waitTask description],
        Except.ok asset_id)
  | .other => ([], Except.error "Only ee.Image and ee.FeatureCollection are supported")

/-- A value of the `init_tree` structure dictionary: either a nested dict
(a subfolder) or a computed object to export.  Dicts are insertion-ordered
association lists. -/
inductive TreeVal where
  | subtree (entries : List (String × TreeVal))
  | leaf (object : ComputedObject)

/-- `_recursive_create` (`utils.py` lines 151-159): walk the structure in
dict order; a dict value creates a FOLDER asset and recurses into it, a
leaf value is exported with description `prefix_name`.  Result: the trace
of remote events and, when a leaf raises (unsupported object), the
propagated error message. -/
def recursiveCreate : List (String × TreeVal) → String → String → List GEEEvent × Option String
  | [], _, _ => ([], none)
  | (name, content) :: rest, pfx, folder =>
      let asset_id := folder ++ "/" ++ name
      let description := pfx ++ "_" ++ name
      match content with
      | TreeVal.subtree entries =>
          let sub := recursiveCreate entries pfx asset_id
          match sub.2 with
          | some e => (GEEEvent.createFolder asset_id :: sub.1, some e)
          | none =>
              let rst := recursiveCreate rest pfx folder
              (GEEEvent.createFolder asset_id :: (sub.1 ++ rst.1), rst.2)
      | TreeVal.leaf object =>
          match export_asset object asset_id description with
          | (tr, Except.error e) => (tr, some e)
          | (tr, Except.ok _) =>
              let rst := recursiveCreate rest pfx folder
              (tr ++ rst.1, rst.2)

/-- `init_tree` (`utils.py` lines 126-169).  `roots` models
`ee.data.getAssetRoots()` (the list of the account's registered root ids);
the `root` parameter is the function's `root` argument, which the source
overwrites with `ee.data.getAssetRoots()[0]["id"]` before use (line 162).
Result: the trace of remote events and the returned root-folder path (or
the propagated error). -/
def init_tree (roots : List String) (struct : List (String × TreeVal)) (pfx : String)
    (root : String) : List GEEEvent × Except String String :=
  match roots with
  | [] => ([], Except.error "list index out of range")
  | r :: _ =>
      let root_folder := r ++ "/" ++ pfx
      let res := recursiveCreate struct pfx root_folder
      match res.2 with
      | some e => (GEEEvent.createFolder root_folder :: res.1, Except.error e)
      | none => (GEEEvent.createFolder root_folder :: res.1, Except.ok root_folder)

/-- The export kind the spec assigns to each supported object variant:
vector collections become table exports, rasters image exports. -/
def exportKindOf : ComputedObject → Option ExportKind
  | .featureCollection => some .table
  | .image => some .image
  | .other => none

/-- Modelled from the spec (§4.4 Tree Initializer): the events the spec
prescribes for walking the specification — "for mapping values, creates a
subfolder and recurses; for leaf (exportable) values, calls Asset Exporter
with a description `<prefix>_<name>`".  Specification side of claim C7. -/
def specEvents : List (String × TreeVal) → String → String → List GEEEvent
  | [], _, _ => []
  | (name, content) :: rest, pfx, folder =>
      let asset_id := folder ++ "/" ++ name
      match content with
      | TreeVal.subtree entries =>
          GEEEvent.createFolder asset_id ::
            (specEvents entries pfx asset_id ++ specEvents rest pfx folder)
      | TreeVal.leaf object =>
          (match exportKindOf object with
            | some k =>
                [GEEEvent.startExport k (pfx ++ "_" ++ name) asset_id,
                  GEEEvent.waitTask (pfx ++ "_" ++ name)]
            | none => []) ++ specEvents rest pfx folder

/-- Every leaf of the structure is an exportable object (a
FeatureCollection or an Image). -/
def noOtherList : List (String × TreeVal) → Bool
  | [] => true
  | (_, TreeVal.subtree entries) :: rest => noOtherList entries && noOtherList rest
  | (_, TreeVal.leaf object) :: rest =>
      (match object with
        | ComputedObject.other => false
        | _ => true) && noOtherList rest


/-! ### Lemmas about the recursive asset listing -/

/-- Auxiliary form of the accumulator property of `_recursive_get`,
by strong induction on the size of the forest. -/
theorem recursiveGet_acc_aux (n : Nat) :
    ∀ (ts : List ATree), sizeOf ts ≤ n →
      ∀ (acc : List AssetRecord), recursiveGet ts acc = acc ++ recursiveGet ts [] := by
  induction n with
  | zero =>
    intro ts h
    cases ts with
    | nil => intro acc; simp [recursiveGet]
    | cons t ts => simp at h
  | succ n ih =>
    intro ts h acc
    cases ts with
    | nil => simp [recursiveGet]
    | cons t ts =>
      cases t with
      | mk info children =>
        have hts : sizeOf ts ≤ n := by simp at h; omega
        have hch : sizeOf children ≤ n := by simp at h; omega
        simp only [recursiveGet]
        by_cases hf : info.type == "FOLDER"
        · simp only [hf, if_true, List.nil_append]
          rw [ih ts hts (recursiveGet children (acc ++ [info])),
            ih ts hts (recursiveGet children [info]),
            ih children hch (acc ++ [info]), ih children hch [info]]
          simp
        · simp only [hf, Bool.false_eq_true, if_false, List.nil_append]
          rw [ih ts hts (acc ++ [info]), ih ts hts [info]]
          simp

/-- `_recursive_get` only ever appends to the accumulator it is given. -/
theorem recursiveGet_acc (ts : List ATree) (acc : List AssetRecord) :
    recursiveGet ts acc = acc ++ recursiveGet ts [] :=
  recursiveGet_acc_aux (sizeOf ts) ts (Nat.le_refl _) acc

/-- Auxiliary form: the listing produced by `_recursive_get` is exactly the
depth-first flattening prescribed by the spec. -/
theorem recursiveGet_eq_dfsList_aux (n : Nat) :
    ∀ (ts : List ATree), sizeOf ts ≤ n → recursiveGet ts [] = dfsList ts := by
  induction n with
  | zero =>
    intro ts h
    cases ts with
    | nil => simp [recursiveGet, dfsList]
    | cons t ts => simp at h
  | succ n ih =>
    intro ts h
    cases ts with
    | nil => simp [recursiveGet, dfsList]
    | cons t ts =>
      cases t with
      | mk info children =>
        have hts : sizeOf ts ≤ n := by simp at h; omega
        have hch : sizeOf children ≤ n := by simp at h; omega
        simp only [recursiveGet, dfsList, List.nil_append]
        by_cases hf : info.type == "FOLDER"
        · simp only [hf, if_true]
          rw [recursiveGet_acc children [info], recursiveGet_acc ts, ih ts hts,
            ih children hch]
          simp
        · simp only [hf, Bool.false_eq_true, if_false]
          rw [recursiveGet_acc ts [info], ih ts hts]
          simp

/-- The listing produced by `_recursive_get` is exactly the depth-first
flattening prescribed by the spec. -/
theorem recursiveGet_eq_dfsList (ts : List ATree) : recursiveGet ts [] = dfsList ts :=
  recursiveGet_eq_dfsList_aux (sizeOf ts) ts (Nat.le_refl _)

/-! ### Lemmas about the `delete` closure -/

/-- Running the `delete` closure over a list of ids: `output` collects all
of them; `ee.data.deleteAsset` is called on none of them in dry-run mode
and on all of them otherwise. -/
theorem foldl_deleteStep (dry_run : Bool) (ids : List String) :
    ∀ (o d : List String),
      ids.foldl (deleteStep dry_run) (o, d) = (o ++ ids, if dry_run then d else d ++ ids) := by
  induction ids with
  | nil => intro o d; cases dry_run <;> simp [deleteStep]
  | cons i ids ih =>
    intro o d
    cases dry_run <;> simp [deleteStep, ih, List.append_assoc]

/-! ### Lemmas about the level grouping of `delete_assets` -/

/-- Appending an asset to its level bucket inserts it, up to permutation,
at the end of the flattened dict. -/
theorem flatten_addToLevels_perm (m : List (Nat × List AssetRecord)) (lvl : Nat)
    (a : AssetRecord) :
    (((addToLevels m lvl a).map (fun p => p.2)).flatten).Perm
      ((m.map (fun p => p.2)).flatten ++ [a]) := by
  induction m with
  | nil => simp [addToLevels]
  | cons q m ih =>
    cases q with
    | mk k l =>
      by_cases hk : k == lvl
      · simp only [addToLevels, hk, if_true, List.map_cons, List.flatten_cons,
          List.append_assoc]
        exact List.Perm.append_left l List.perm_append_comm
      · simp only [addToLevels, hk, Bool.false_eq_true, if_false, List.map_cons,
          List.flatten_cons, List.append_assoc]
        refine (List.Perm.append_left l ih).trans ?_
        simp [List.append_assoc]

/-- Auxiliary form of the grouping permutation, generalized over the
starting dict. -/
theorem flatten_groupLevels_aux (l : List AssetRecord) :
    ∀ (m : List (Nat × List AssetRecord)),
      (((l.foldl (fun m a => addToLevels m (depth a.id) a) m).map (fun p => p.2)).flatten).Perm
        ((m.map (fun p => p.2)).flatten ++ l) := by
  induction l with
  | nil => intro m; simp
  | cons a l ih =>
    intro m
    simp only [List.foldl_cons]
    refine (ih (addToLevels m (depth a.id) a)).trans ?_
    have h2 := List.Perm.append_right l (flatten_addToLevels_perm m (depth a.id) a)
    simpa [List.append_assoc] using h2

/-- The grouping loop of `delete_assets` is a permutation of the listing. -/
theorem flatten_groupLevels_perm (l : List AssetRecord) :
    (((groupLevels l).map (fun p => p.2)).flatten).Perm l := by
  have h := flatten_groupLevels_aux l []
  simpa [groupLevels] using h

/-- Inserting a bucket preserves the flattened contents up to permutation. -/
theorem flatten_insertDesc_perm (p : Nat × List AssetRecord) :
    ∀ (m : List (Nat × List AssetRecord)),
      (((insertDesc p m).map (fun q => q.2)).flatten).Perm
        (p.2 ++ (m.map (fun q => q.2)).flatten) := by
  intro m
  induction m with
  | nil => simp [insertDesc]
  | cons q m ih =>
    by_cases hq : q.1 ≤ p.1
    · simp [insertDesc, hq]
    · simp only [insertDesc, hq, if_false, List.map_cons, List.flatten_cons]
      refine (List.Perm.append_left q.2 ih).trans ?_
      rw [← List.append_assoc, ← List.append_assoc]
      exact List.Perm.append_right _ List.perm_append_comm

/-- Sorting the buckets preserves the flattened contents up to
permutation. -/
theorem flatten_sortLevelsDesc_perm (m : List (Nat × List AssetRecord)) :
    (((sortLevelsDesc m).map (fun p => p.2)).flatten).Perm
      ((m.map (fun p => p.2)).flatten) := by
  induction m with
  | nil => simp [sortLevelsDesc]
  | cons q m ih =>
    simp only [sortLevelsDesc, List.foldr_cons]
    refine (flatten_insertDesc_perm q (m.foldr insertDesc [])).trans ?_
    simp only [List.map_cons, List.flatten_cons]
    exact List.Perm.append_left _ ih

/-- The deletion order of a FOLDER is a permutation of the recursive
listing. -/
theorem deletionFlatten_perm (l : List AssetRecord) :
    ((((sortLevelsDesc (groupLevels l)).map (fun p => p.2)).flatten)).Perm l :=
  (flatten_sortLevelsDesc_perm (groupLevels l)).trans (flatten_groupLevels_perm l)

/-- Every asset sits in the bucket of its own nesting level. -/
theorem addToLevels_keyed (m : List (Nat × List AssetRecord)) (lvl : Nat) (a : AssetRecord)
    (hm : ∀ p ∈ m, ∀ b ∈ p.2, depth b.id = p.1) (ha : depth a.id = lvl) :
    ∀ p ∈ addToLevels m lvl a, ∀ b ∈ p.2, depth b.id = p.1 := by
  induction m with
  | nil =>
    intro p hp b hb
    simp [addToLevels] at hp
    subst hp
    simp at hb
    subst hb
    exact ha
  | cons q m ih =>
    cases q with
    | mk k l =>
      by_cases hk : k == lvl
      · intro p hp b hb
        simp only [addToLevels, hk, if_true, List.mem_cons] at hp
        rcases hp with hp | hp
        · subst hp
          simp only [List.mem_append, List.mem_singleton] at hb
          rcases hb with hb | hb
          · exact hm (k, l) (List.mem_cons_self _ _) b hb
          · subst hb
            have : k = lvl := by simpa using hk
            simp [ha, this]
        · exact hm p (List.mem_cons_of_mem _ hp) b hb
      · intro p hp b hb
        simp only [addToLevels, hk, Bool.false_eq_true, if_false, List.mem_cons] at hp
        rcases hp with hp | hp
        · subst hp
          exact hm (k, l) (List.mem_cons_self _ _) b hb
        · exact ih (fun p hp => hm p (List.mem_cons_of_mem _ hp)) p hp b hb

/-- Auxiliary form of the bucket-key invariant for the grouping loop. -/
theorem groupLevels_keyed_aux (l : List AssetRecord) :
    ∀ (m : List (Nat × List AssetRecord)), (∀ p ∈ m, ∀ b ∈ p.2, depth b.id = p.1) →
      ∀ p ∈ l.foldl (fun m a => addToLevels m (depth a.id) a) m, ∀ b ∈ p.2, depth b.id = p.1 := by
  induction l with
  | nil => intro m hm; simpa using hm
  | cons a l ih =>
    intro m hm
    simp only [List.foldl_cons]
    exact ih (addToLevels m (depth a.id) a) (addToLevels_keyed m (depth a.id) a hm rfl)

/-- Every bucket of the grouping dict holds exactly the assets of its
key's nesting level. -/
theorem groupLevels_keyed (l : List AssetRecord) :
    ∀ p ∈ groupLevels l, ∀ b ∈ p.2, depth b.id = p.1 :=
  groupLevels_keyed_aux l [] (by simp)

/-- Membership after bucket insertion. -/
theorem mem_insertDesc (p : Nat × List AssetRecord) :
    ∀ (m : List (Nat × List AssetRecord)) (q : Nat × List AssetRecord),
      q ∈ insertDesc p m → q = p ∨ q ∈ m := by
  intro m
  induction m with
  | nil => intro q hq; exact Or.inl (by simpa [insertDesc] using hq)
  | cons r m ih =>
    intro q hq
    by_cases hr : r.1 ≤ p.1
    · simp only [insertDesc, hr, if_true, List.mem_cons] at hq
      rcases hq with hq | hq | hq
      · exact Or.inl hq
      · exact Or.inr (by simp [hq])
      · exact Or.inr (List.mem_cons_of_mem _ hq)
    · simp only [insertDesc, hr, if_false, List.mem_cons] at hq
      rcases hq with hq | hq
      · exact Or.inr (by simp [hq])
      · rcases ih q hq with h | h
        · exact Or.inl h
        · exact Or.inr (List.mem_cons_of_mem _ h)

/-- Membership after sorting the buckets. -/
theorem mem_sortLevelsDesc (m : List (Nat × List AssetRecord)) (q : Nat × List AssetRecord) :
    q ∈ sortLevelsDesc m → q ∈ m := by
  induction m with
  | nil => simp [sortLevelsDesc]
  | cons r m ih =>
    intro hq
    simp only [sortLevelsDesc, List.foldr_cons] at hq
    rcases mem_insertDesc r (m.foldr insertDesc []) q hq with h | h
    · simp [h]
    · exact List.mem_cons_of_mem _ (ih h)

/-- Inserting a bucket into a list sorted by decreasing key keeps it
sorted by decreasing key. -/
theorem insertDesc_sorted (p : Nat × List AssetRecord) :
    ∀ (m : List (Nat × List AssetRecord)),
      m.Pairwise (fun x y => y.1 ≤ x.1) →
      (insertDesc p m).Pairwise (fun x y => y.1 ≤ x.1) := by
  intro m
  induction m with
  | nil => intro _; simp [insertDesc]
  | cons q m ih =>
    intro hm
    rw [List.pairwise_cons] at hm
    by_cases hq : q.1 ≤ p.1
    · simp only [insertDesc, hq, if_true]
      refine List.Pairwise.cons ?_ (List.Pairwise.cons hm.1 hm.2)
      intro r hr
      rcases List.mem_cons.mp hr with h | h
      · subst h; exact hq
      · exact le_trans (hm.1 r h) hq
    · simp only [insertDesc, hq, if_false]
      refine List.Pairwise.cons ?_ (ih hm.2)
      intro r hr
      rcases mem_insertDesc p m r hr with h | h
      · subst h; omega
      · exact hm.1 r h

/-- The sorted bucket list is sorted by decreasing key. -/
theorem sortLevelsDesc_sorted (m : List (Nat × List AssetRecord)) :
    (sortLevelsDesc m).Pairwise (fun x y => y.1 ≤ x.1) := by
  induction m with
  | nil => simp [sortLevelsDesc]
  | cons q m ih =>
    simp only [sortLevelsDesc, List.foldr_cons]
    exact insertDesc_sorted q (m.foldr insertDesc []) ih

/-- Flattening buckets that are keyed by level and sorted by decreasing
key yields a sequence of assets of non-increasing nesting level. -/
theorem flatten_pairwise_depth (m : List (Nat × List AssetRecord))
    (hkey : ∀ p ∈ m, ∀ b ∈ p.2, depth b.id = p.1)
    (hsort : m.Pairwise (fun x y => y.1 ≤ x.1)) :
    ((m.map (fun p => p.2)).flatten).Pairwise (fun a b => depth b.id ≤ depth a.id) := by
  induction m with
  | nil => simp
  | cons q m ih =>
    rw [List.pairwise_cons] at hsort
    simp only [List.map_cons, List.flatten_cons]
    rw [List.pairwise_append]
    refine ⟨?_, ?_, ?_⟩
    · refine List.pairwise_of_forall_mem_list ?_
      intro a ha b hb
      have h1 := hkey q (List.mem_cons_self _ _) a ha
      have h2 := hkey q (List.mem_cons_self _ _) b hb
      omega
    · exact ih (fun p hp => hkey p (List.mem_cons_of_mem _ hp)) hsort.2
    · intro a ha b hb
      rcases List.mem_flatten.mp hb with ⟨l2, hl2, hb2⟩
      rcases List.mem_map.mp hl2 with ⟨p, hp, rfl⟩
      have h1 := hkey q (List.mem_cons_self _ _) a ha
      have h2 := hkey p (List.mem_cons_of_mem _ hp) b hb2
      have h3 := hsort.1 p hp
      omega

/-- `delete_assets` on an existing asset: the `output` list is the
deletion order; the remote `deleteAsset` trace is empty in dry-run mode
and equals `output` otherwise. -/
theorem delete_assets_eq (st : List ATree) (asset_id : String) (t : ATree) (dry_run : Bool)
    (hfind : findNode st asset_id = some t) :
    delete_assets st asset_id dry_run
      = some (deletionList t asset_id,
          if dry_run then [] else deletionList t asset_id) := by
  simp only [delete_assets, hfind, Option.map_some']
  rw [foldl_deleteStep]
  simp

/-- The deletion order of an existing FOLDER whose descendants all lie
strictly below it (and whose records carry `name = id`): a permutation of
the listed names followed by the folder id, of non-increasing nesting
level, ending in the folder id. -/
theorem deletionList_folder (info : AssetRecord) (children : List ATree) (asset_id : String)
    (htype : info.type = "FOLDER")
    (hdeep : ∀ r ∈ recursiveGet children [], depth asset_id < depth r.id)
    (hname : ∀ r ∈ recursiveGet children [], r.name = r.id) :
    (deletionList (ATree.mk info children) asset_id).Perm
        ((recursiveGet children []).map (fun a => a.name) ++ [asset_id]) ∧
      (deletionList (ATree.mk info children) asset_id).length
        = (recursiveGet children []).length + 1 ∧
      (deletionList (ATree.mk info children) asset_id).getLast? = some asset_id ∧
      (deletionList (ATree.mk info children) asset_id).Pairwise
        (fun x y => depth y ≤ depth x) := by
  have hdl : deletionList (ATree.mk info children) asset_id
      = ((((sortLevelsDesc (groupLevels (recursiveGet children []))).map
            (fun p => p.2)).flatten).map (fun a => a.name)) ++ [asset_id] := by
    simp [deletionList, ATree.info, ATree.children, htype]
  have hperm := deletionFlatten_perm (recursiveGet children [])
  refine ⟨?_, ?_, ?_, ?_⟩
  · rw [hdl]
    exact List.Perm.append_right [asset_id] (List.Perm.map _ hperm)
  · rw [hdl]
    rw [List.length_append, List.length_map, hperm.length_eq]
    simp
  · rw [hdl]
    exact List.getLast?_concat _
  · rw [hdl]
    have hkey2 : ∀ p ∈ sortLevelsDesc (groupLevels (recursiveGet children [])),
        ∀ b ∈ p.2, depth b.id = p.1 :=
      fun p hp => groupLevels_keyed (recursiveGet children []) p (mem_sortLevelsDesc _ p hp)
    have hFpw := flatten_pairwise_depth _ hkey2
      (sortLevelsDesc_sorted (groupLevels (recursiveGet children [])))
    rw [List.pairwise_append]
    refine ⟨?_, by simp, ?_⟩
    · rw [List.pairwise_map]
      refine hFpw.imp_of_mem ?_
      intro a b ha hb hab
      rw [hname a (hperm.subset ha), hname b (hperm.subset hb)]
      exact hab
    · intro x hx y hy
      simp only [List.mem_singleton] at hy
      subst hy
      rcases List.mem_map.mp hx with ⟨r, hr, rfl⟩
      have h1 := hname r (hperm.subset hr)
      have h2 := hdeep r (hperm.subset hr)
      rw [h1]
      omega

/-! ### Lemmas about the polling loop of `wait` -/

/-- The loop exits, returning the current state, as soon as the state is
COMPLETED or the elapsed time has reached the timeout. -/
theorem waitLoop_exit (status : Nat → String) (timeout : Nat) (state : String) (k : Nat)
    (h : ¬(state ≠ "COMPLETED" ∧ 5 * k < timeout)) :
    waitLoop status timeout state k = (state, k) := by
  rw [waitLoop]
  exact dif_neg h

/-- A poll observing FAILED breaks out of the loop at once. -/
theorem waitLoop_fail (status : Nat → String) (timeout : Nat) (state : String) (k : Nat)
    (h1 : state ≠ "COMPLETED") (h2 : 5 * k < timeout) (h3 : status k = "FAILED") :
    waitLoop status timeout state k = ("FAILED", k + 1) := by
  rw [waitLoop, dif_pos ⟨h1, h2⟩]
  simp [h3]

/-- A poll observing anything but FAILED continues the loop with the
polled state. -/
theorem waitLoop_poll (status : Nat → String) (timeout : Nat) (state : String) (k : Nat)
    (h1 : state ≠ "COMPLETED") (h2 : 5 * k < timeout) (h3 : status k ≠ "FAILED") :
    waitLoop status timeout state k = waitLoop status timeout (status k) (k + 1) := by
  rw [waitLoop, dif_pos ⟨h1, h2⟩]
  simp [h3]

/-- Running the loop across `n` polls that all stay non-terminal and
within the timeout. -/
theorem waitLoop_reach (status : Nat → String) (timeout : Nat) :
    ∀ (n k : Nat) (state : String), state ≠ "COMPLETED" → state ≠ "FAILED" →
      (∀ j, k ≤ j → j < k + n →
        (status j ≠ "COMPLETED" ∧ status j ≠ "FAILED") ∧ 5 * j < timeout) →
      waitLoop status timeout state k
        = waitLoop status timeout (if n = 0 then state else status (k + n - 1)) (k + n) := by
  intro n
  induction n with
  | zero => intro k state h1 h2 hall; simp
  | succ n ih =>
    intro k state h1 h2 hall
    have hk := hall k (Nat.le_refl k) (by omega)
    rw [waitLoop_poll status timeout state k h1 hk.2 hk.1.2]
    have hall2 : ∀ j, k + 1 ≤ j → j < (k + 1) + n →
        (status j ≠ "COMPLETED" ∧ status j ≠ "FAILED") ∧ 5 * j < timeout :=
      fun j hj1 hj2 => hall j (by omega) (by omega)
    rw [ih (k + 1) (status k) hk.1.1 hk.1.2 hall2]
    have e1 : k + 1 + n = k + (n + 1) := by omega
    have e2 : (if n = 0 then status k else status (k + 1 + n - 1)) = status (k + n) := by
      cases n with
      | zero => simp
      | succ m =>
        have e : k + 1 + (m + 1) - 1 = k + (m + 1) := by omega
        simp [e]
    rw [e2, e1]
    have e3 : k + (n + 1) - 1 = k + n := by omega
    simp [e3]

/-! ### Lemmas about the recursive tree creation -/

/-- Auxiliary form: when every leaf of the structure is exportable,
`_recursive_create` performs exactly the events the spec prescribes and
raises no error. -/
theorem recursiveCreate_noOther_aux (n : Nat) :
    ∀ (l : List (String × TreeVal)), sizeOf l ≤ n → ∀ (pfx folder : String),
      noOtherList l = true → recursiveCreate l pfx folder = (specEvents l pfx folder, none) := by
  induction n with
  | zero =>
    intro l h
    cases l with
    | nil => intro pfx folder _; simp [recursiveCreate, specEvents]
    | cons e rest => simp at h
  | succ n ih =>
    intro l h pfx folder hno
    cases l with
    | nil => simp [recursiveCreate, specEvents]
    | cons e rest =>
      cases e with
      | mk name content =>
        cases content with
        | subtree entries =>
          have h1 : sizeOf entries ≤ n := by simp at h; omega
          have h2 : sizeOf rest ≤ n := by simp at h; omega
          simp only [noOtherList, Bool.and_eq_true] at hno
          simp only [recursiveCreate, specEvents]
          rw [ih entries h1 pfx (folder ++ "/" ++ name) hno.1,
            ih rest h2 pfx folder hno.2]
        | leaf object =>
          have h2 : sizeOf rest ≤ n := by simp at h; omega
          cases object with
          | featureCollection =>
            simp only [noOtherList, Bool.and_eq_true] at hno
            simp only [recursiveCreate, specEvents, export_asset, exportKindOf]
            rw [ih rest h2 pfx folder hno.2]
          | image =>
            simp only [noOtherList, Bool.and_eq_true] at hno
            simp only [recursiveCreate, specEvents, export_asset, exportKindOf]
            rw [ih rest h2 pfx folder hno.2]
          | other => simp [noOtherList] at hno

/-- When every leaf of the structure is exportable, `_recursive_create`
performs exactly the events the spec prescribes and raises no error. -/
theorem recursiveCreate_noOther (l : List (String × TreeVal)) (pfx folder : String)
    (hno : noOtherList l = true) :
    recursiveCreate l pfx folder = (specEvents l pfx folder, none) :=
  recursiveCreate_noOther_aux (sizeOf l) l (Nat.le_refl _) pfx folder hno

/-! ### Claim theorems -/

/-- C1: for every folder whose recursive listing yields N assets,
`delete_assets` in dry-run mode returns a list with exactly those N asset
ids plus the input folder id itself, ordered so that every id at nesting
depth d appears before any id at depth strictly less than d, with the
input folder id last (and no remote deletion happens).  The store-shaped
hypotheses say that the folder exists, that every listed descendant lies
strictly below the folder, and that records carry `name = id`. -/
theorem claim_C1_delete_dry_run_order (st : List ATree) (asset_id : String)
    (info : AssetRecord) (children : List ATree)
    (hfind : findNode st asset_id = some (ATree.mk info children))
    (htype : info.type = "FOLDER")
    (hdeep : ∀ r ∈ recursiveGet children [], depth asset_id < depth r.id)
    (hname : ∀ r ∈ recursiveGet children [], r.name = r.id) :
    ∃ out, delete_assets st asset_id true = some (out, []) ∧
      out.Perm ((recursiveGet children []).map (fun a => a.name) ++ [asset_id]) ∧
      out.length = (recursiveGet children []).length + 1 ∧
      out.getLast? = some asset_id ∧
      out.Pairwise (fun x y => depth y ≤ depth x) := by
  refine ⟨deletionList (ATree.mk info children) asset_id, ?_, ?_⟩
  · simpa using delete_assets_eq st asset_id (ATree.mk info children) true hfind
  · exact deletionList_folder info children asset_id htype hdeep hname

/-- Witness for C1 on a concrete two-level folder. -/
theorem claim_C1_delete_dry_run_order_witness :
    ∃ out,
      delete_assets
        [ATree.mk ⟨"FOLDER", "users/t", "users/t"⟩
          [ATree.mk ⟨"FOLDER", "users/t/sub", "users/t/sub"⟩
            [ATree.mk ⟨"IMAGE", "users/t/sub/img", "users/t/sub/img"⟩ []],
           ATree.mk ⟨"TABLE", "users/t/fc", "users/t/fc"⟩ []]] "users/t" true
        = some (out, []) ∧
      out.Perm ((recursiveGet
          [ATree.mk ⟨"FOLDER", "users/t/sub", "users/t/sub"⟩
            [ATree.mk ⟨"IMAGE", "users/t/sub/img", "users/t/sub/img"⟩ []],
           ATree.mk ⟨"TABLE", "users/t/fc", "users/t/fc"⟩ []] []).map (fun a => a.name)
          ++ ["users/t"]) ∧
      out.length = (recursiveGet
          [ATree.mk ⟨"FOLDER", "users/t/sub", "users/t/sub"⟩
            [ATree.mk ⟨"IMAGE", "users/t/sub/img", "users/t/sub/img"⟩ []],
           ATree.mk ⟨"TABLE", "users/t/fc", "users/t/fc"⟩ []] []).length + 1 ∧
      out.getLast? = some "users/t" ∧
      out.Pairwise (fun x y => depth y ≤ depth x) :=
  claim_C1_delete_dry_run_order
    [ATree.mk ⟨"FOLDER", "users/t", "users/t"⟩
      [ATree.mk ⟨"FOLDER", "users/t/sub", "users/t/sub"⟩
        [ATree.mk ⟨"IMAGE", "users/t/sub/img", "users/t/sub/img"⟩ []],
       ATree.mk ⟨"TABLE", "users/t/fc", "users/t/fc"⟩ []]]
    "users/t" ⟨"FOLDER", "users/t", "users/t"⟩
    [ATree.mk ⟨"FOLDER", "users/t/sub", "users/t/sub"⟩
      [ATree.mk ⟨"IMAGE", "users/t/sub/img", "users/t/sub/img"⟩ []],
     ATree.mk ⟨"TABLE", "users/t/fc", "users/t/fc"⟩ []]
    (by simp [findNode]) rfl
    (by simp [recursiveGet]; decide)
    (by simp [recursiveGet])

/-- C2: for every existing asset, `delete_assets` with `dry_run = true`
performs no remote delete call at all, and with `dry_run = false` performs
exactly one remote delete call per id of the returned list (the deletion
trace equals the returned list). -/
theorem claim_C2_dry_run_frame (st : List ATree) (asset_id : String) (t : ATree)
    (hfind : findNode st asset_id = some t) :
    ∃ out, delete_assets st asset_id true = some (out, []) ∧
      delete_assets st asset_id false = some (out, out) := by
  refine ⟨deletionList t asset_id, ?_, ?_⟩
  · simpa using delete_assets_eq st asset_id t true hfind
  · simpa using delete_assets_eq st asset_id t false hfind

/-- Witness for C2 on a concrete single asset. -/
theorem claim_C2_dry_run_frame_witness :
    ∃ out,
      delete_assets [ATree.mk ⟨"IMAGE", "users/x", "users/x"⟩ []] "users/x" true
        = some (out, []) ∧
      delete_assets [ATree.mk ⟨"IMAGE", "users/x", "users/x"⟩ []] "users/x" false
        = some (out, out) :=
  claim_C2_dry_run_frame [ATree.mk ⟨"IMAGE", "users/x", "users/x"⟩ []] "users/x"
    (ATree.mk ⟨"IMAGE", "users/x", "users/x"⟩ []) (by simp [findNode])

/-- C10: for every existing asset and both modes, the list returned by
`delete_assets` is non-empty and ends with the input asset path; for a
non-FOLDER asset it is exactly that single entry. -/
theorem claim_C10_delete_last_element (st : List ATree) (asset_id : String) (t : ATree)
    (dry_run : Bool) (hfind : findNode st asset_id = some t) :
    ∃ out tr, delete_assets st asset_id dry_run = some (out, tr) ∧
      out ≠ [] ∧ out.getLast? = some asset_id ∧
      (t.info.type ≠ "FOLDER" → out = [asset_id]) := by
  refine ⟨deletionList t asset_id, if dry_run then [] else deletionList t asset_id,
    delete_assets_eq st asset_id t dry_run hfind, ?_, ?_, ?_⟩
  · simp [deletionList]
  · simp only [deletionList]
    exact List.getLast?_concat _
  · intro hnf
    have hb : (t.info.type == "FOLDER") = false := by simpa using hnf
    simp [deletionList, hb]

/-- Witness for C10 on a concrete non-folder asset in non-dry-run mode. -/
theorem claim_C10_delete_last_element_witness :
    ∃ out tr,
      delete_assets [ATree.mk ⟨"IMAGE", "users/y", "users/y"⟩ []] "users/y" false
        = some (out, tr) ∧
      out ≠ [] ∧ out.getLast? = some "users/y" ∧
      ((ATree.mk ⟨"IMAGE", "users/y", "users/y"⟩ []).info.type ≠ "FOLDER" →
        out = ["users/y"]) :=
  claim_C10_delete_last_element [ATree.mk ⟨"IMAGE", "users/y", "users/y"⟩ []] "users/y"
    (ATree.mk ⟨"IMAGE", "users/y", "users/y"⟩ []) false (by simp [findNode])

/-- C8: for every existing folder, `get_assets` returns the flat record
list in depth-first discovery order (parent before children, siblings in
listing order — the `dfsList` flattening), and the empty list on an empty
folder. -/
theorem claim_C8_get_assets_dfs_order (st : List ATree) (folder : String)
    (info : AssetRecord) (children : List ATree)
    (hfind : findNode st folder = some (ATree.mk info children)) :
    get_assets st folder = some (dfsList children) ∧
      (children = [] → get_assets st folder = some []) := by
  have h : get_assets st folder = some (recursiveGet children []) := by
    simp [get_assets, hfind, ATree.children]
  constructor
  · rw [h, recursiveGet_eq_dfsList]
  · intro hc
    subst hc
    rw [h]
    simp [recursiveGet]

/-- Witness for C8 on a concrete folder with one nested subfolder holding
one asset. -/
theorem claim_C8_get_assets_dfs_order_witness :
    get_assets
        [ATree.mk ⟨"FOLDER", "users/w", "users/w"⟩
          [ATree.mk ⟨"FOLDER", "users/w/sub", "users/w/sub"⟩
            [ATree.mk ⟨"IMAGE", "users/w/sub/img", "users/w/sub/img"⟩ []]]] "users/w"
      = some (dfsList
          [ATree.mk ⟨"FOLDER", "users/w/sub", "users/w/sub"⟩
            [ATree.mk ⟨"IMAGE", "users/w/sub/img", "users/w/sub/img"⟩ []]]) :=
  (claim_C8_get_assets_dfs_order
    [ATree.mk ⟨"FOLDER", "users/w", "users/w"⟩
      [ATree.mk ⟨"FOLDER", "users/w/sub", "users/w/sub"⟩
        [ATree.mk ⟨"IMAGE", "users/w/sub/img", "users/w/sub/img"⟩ []]]]
    "users/w" ⟨"FOLDER", "users/w", "users/w"⟩
    [ATree.mk ⟨"FOLDER", "users/w/sub", "users/w/sub"⟩
      [ATree.mk ⟨"IMAGE", "users/w/sub/img", "users/w/sub/img"⟩ []]]
    (by simp [findNode])).1

/-- C3: for every resolved task and positive timeout, `wait` returns
COMPLETED when a poll observes COMPLETED before the timeout elapses;
returns FAILED on the first poll observing FAILED without polling further;
and when the timeout elapses before a terminal state is observed, returns
the last polled non-terminal state (the poll count is returned next to
the state). -/
theorem claim_C3_wait_terminal_states (tasks : List GEETask) (task : GEETask ⊕ String)
    (timeout : Nat) (t : GEETask)
    (hres : resolve_task tasks task = some t) (ht : 0 < timeout) :
    (∀ k, 5 * k < timeout → t.statuses k = "COMPLETED" →
      (∀ j, j < k → t.statuses j ≠ "COMPLETED" ∧ t.statuses j ≠ "FAILED") →
      wait tasks task timeout = Except.ok ("COMPLETED", k + 1)) ∧
    (∀ k, 5 * k < timeout → t.statuses k = "FAILED" →
      (∀ j, j < k → t.statuses j ≠ "COMPLETED" ∧ t.statuses j ≠ "FAILED") →
      wait tasks task timeout = Except.ok ("FAILED", k + 1)) ∧
    ((∀ k, 5 * k < timeout → t.statuses k ≠ "COMPLETED" ∧ t.statuses k ≠ "FAILED") →
      wait tasks task timeout
        = Except.ok (t.statuses ((timeout + 4) / 5 - 1), (timeout + 4) / 5) ∧
      t.statuses ((timeout + 4) / 5 - 1) ≠ "COMPLETED" ∧
      t.statuses ((timeout + 4) / 5 - 1) ≠ "FAILED") := by
  have hw : wait tasks task timeout
      = Except.ok (waitLoop t.statuses timeout "UNSUBMITTED" 0) := by
    simp [wait, hres]
  refine ⟨?_, ?_, ?_⟩
  · intro k hk hC hmin
    have hall : ∀ j, 0 ≤ j → j < 0 + k →
        (t.statuses j ≠ "COMPLETED" ∧ t.statuses j ≠ "FAILED") ∧ 5 * j < timeout := by
      intro j hj0 hjk
      exact ⟨hmin j (by omega), by omega⟩
    have hreach := waitLoop_reach t.statuses timeout k 0 "UNSUBMITTED"
      (by decide) (by decide) hall
    simp only [Nat.zero_add] at hreach
    have hst : (if k = 0 then "UNSUBMITTED" else t.statuses (k - 1)) ≠ "COMPLETED" := by
      cases k with
      | zero => simp
      | succ m =>
        simp only [Nat.succ_ne_zero, if_false, Nat.add_sub_cancel]
        exact (hmin m (by omega)).1
    have hCF : t.statuses k ≠ "FAILED" := by rw [hC]; decide
    rw [hw, hreach, waitLoop_poll t.statuses timeout _ k hst hk hCF, hC,
      waitLoop_exit t.statuses timeout "COMPLETED" (k + 1) (by simp)]
  · intro k hk hF hmin
    have hall : ∀ j, 0 ≤ j → j < 0 + k →
        (t.statuses j ≠ "COMPLETED" ∧ t.statuses j ≠ "FAILED") ∧ 5 * j < timeout := by
      intro j hj0 hjk
      exact ⟨hmin j (by omega), by omega⟩
    have hreach := waitLoop_reach t.statuses timeout k 0 "UNSUBMITTED"
      (by decide) (by decide) hall
    simp only [Nat.zero_add] at hreach
    have hst : (if k = 0 then "UNSUBMITTED" else t.statuses (k - 1)) ≠ "COMPLETED" := by
      cases k with
      | zero => simp
      | succ m =>
        simp only [Nat.succ_ne_zero, if_false, Nat.add_sub_cancel]
        exact (hmin m (by omega)).1
    rw [hw, hreach, waitLoop_fail t.statuses timeout _ k hst hk hF]
  · intro hno
    have hall : ∀ j, 0 ≤ j → j < 0 + (timeout + 4) / 5 →
        (t.statuses j ≠ "COMPLETED" ∧ t.statuses j ≠ "FAILED") ∧ 5 * j < timeout := by
      intro j hj0 hj
      have h5 : 5 * j < timeout := by omega
      exact ⟨hno j h5, h5⟩
    have hreach := waitLoop_reach t.statuses timeout ((timeout + 4) / 5) 0 "UNSUBMITTED"
      (by decide) (by decide) hall
    simp only [Nat.zero_add] at hreach
    have hKne : ¬((timeout + 4) / 5 = 0) := by omega
    rw [if_neg hKne] at hreach
    have hexit := waitLoop_exit t.statuses timeout (t.statuses ((timeout + 4) / 5 - 1))
      ((timeout + 4) / 5) (fun hc => absurd hc.2 (by omega))
    refine ⟨?_, (hno ((timeout + 4) / 5 - 1) (by omega)).1,
      (hno ((timeout + 4) / 5 - 1) (by omega)).2⟩
    rw [hw, hreach, hexit]

/-- Witness for C3: a task completing on the first poll with a one-minute
timeout. -/
theorem claim_C3_wait_terminal_states_witness :
    0 < 60 ∧
      wait [] (Sum.inl ⟨"t3", fun _ => "COMPLETED"⟩) 60 = Except.ok ("COMPLETED", 1) :=
  ⟨by decide,
    (claim_C3_wait_terminal_states [] (Sum.inl ⟨"t3", fun _ => "COMPLETED"⟩) 60
        ⟨"t3", fun _ => "COMPLETED"⟩ rfl (by decide)).1 0 (by decide) rfl
      (fun j hj => absurd hj (Nat.not_lt_zero j))⟩

/-- C4: the docstring says `timeout = 0` means "the parameter is ignored",
i.e. the loop should poll until COMPLETED or FAILED; but the loop
condition `time.time() - start_time < timeout` is false at once for
`timeout = 0`, so the code performs zero polls and returns the initial
state "UNSUBMITTED" — even for a task that is already COMPLETED. -/
theorem claim_C4_wait_timeout_zero_returns_unsubmitted :
    wait [] (Sum.inl ⟨"export_task", fun _ => "COMPLETED"⟩) 0
      = Except.ok ("UNSUBMITTED", 0) := by
  have h := waitLoop_exit (fun _ => "COMPLETED") 0 "UNSUBMITTED" 0
    (fun hc => absurd hc.2 (by omega))
  simp [wait, resolve_task, h]

/-- C6: a description matching no task in the task list makes `wait` fail
with the lookup assertion, after a single scan of the task list and
without any poll of a task state. -/
theorem claim_C6_wait_unknown_description (tasks : List GEETask) (descr : String)
    (timeout : Nat) (h : ∀ t ∈ tasks, t.description ≠ descr) :
    get_task tasks descr = none ∧
      wait tasks (Sum.inr descr) timeout = Except.error "The task is not found" := by
  have hg : get_task tasks descr = none := by
    apply List.find?_eq_none.mpr
    intro t ht
    simpa using h t ht
  exact ⟨hg, by simp [wait, resolve_task, hg]⟩

/-- Witness for C6: a one-task list and a description matching nothing. -/
theorem claim_C6_wait_unknown_description_witness :
    get_task [⟨"a", fun _ => "RUNNING"⟩] "b" = none ∧
      wait [⟨"a", fun _ => "RUNNING"⟩] (Sum.inr "b") 60
        = Except.error "The task is not found" :=
  claim_C6_wait_unknown_description [⟨"a", fun _ => "RUNNING"⟩] "b" 60 (by simp)

/-- C5: `export_asset` raises the unsupported-type error, with no remote
event at all, for an object that is neither a FeatureCollection nor an
Image; for the two supported variants it starts the matching export task,
waits on its description, and returns the target asset path. -/
theorem claim_C5_export_asset_dispatch (asset_id description : String) :
    export_asset ComputedObject.other asset_id description
        = ([], Except.error "Only ee.Image and ee.FeatureCollection are supported") ∧
      export_asset ComputedObject.featureCollection asset_id description
        = ([GEEEvent.startExport ExportKind.table description asset_id,
            GEEEvent.waitTask description], Except.ok asset_id) ∧
      export_asset ComputedObject.image asset_id description
        = ([GEEEvent.startExport ExportKind.image description asset_id,
            GEEEvent.waitTask description], Except.ok asset_id) :=
  ⟨rfl, rfl, rfl⟩

set_option maxHeartbeats 1000000 in
/-- C7: `init_tree` creates the root folder `<root>/<prefix>` under the
account's first registered root, then walks the structure creating one
subfolder per dict value and exporting each leaf with description
`<prefix>_<name>` (the `specEvents` of the spec), and returns the root
folder path; on the two-level example with prefix "toto" it creates
subfolder `folder_1` and exports exactly `image` and `fc` with
descriptions `toto_image` and `toto_fc`. -/
theorem claim_C7_init_tree_structure :
    (∀ (r : String) (rest : List String) (struct : List (String × TreeVal))
        (pfx root : String), noOtherList struct = true →
      init_tree (r :: rest) struct pfx root
        = (GEEEvent.createFolder (r ++ "/" ++ pfx)
            :: specEvents struct pfx (r ++ "/" ++ pfx),
           Except.ok (r ++ "/" ++ pfx))) ∧
    init_tree ["users/me"]
        [("folder_1", TreeVal.subtree
          [("image", TreeVal.leaf ComputedObject.image),
           ("fc", TreeVal.leaf ComputedObject.featureCollection)])] "toto" "unused_root"
      = ([GEEEvent.createFolder "users/me/toto",
          GEEEvent.createFolder "users/me/toto/folder_1",
          GEEEvent.startExport ExportKind.image "toto_image" "users/me/toto/folder_1/image",
          GEEEvent.waitTask "toto_image",
          GEEEvent.startExport ExportKind.table "toto_fc" "users/me/toto/folder_1/fc",
          GEEEvent.waitTask "toto_fc"],
         Except.ok "users/me/toto") := by
  have hgen : ∀ (r : String) (rest : List String) (struct : List (String × TreeVal))
      (pfx root : String), noOtherList struct = true →
      init_tree (r :: rest) struct pfx root
        = (GEEEvent.createFolder (r ++ "/" ++ pfx)
            :: specEvents struct pfx (r ++ "/" ++ pfx),
           Except.ok (r ++ "/" ++ pfx)) := by
    intro r rest struct pfx root hno
    simp only [init_tree]
    rw [recursiveCreate_noOther struct pfx (r ++ "/" ++ pfx) hno]
  refine ⟨hgen, ?_⟩
  rw [hgen "users/me" [] _ "toto" "unused_root" (by simp [noOtherList])]
  rw [show "users/me" ++ "/" ++ "toto" = "users/me/toto" from rfl]
  simp [specEvents, exportKindOf]

/-- Witness for C7 on a one-leaf structure. -/
theorem claim_C7_init_tree_structure_witness :
    noOtherList [("a", TreeVal.leaf ComputedObject.image)] = true ∧
      init_tree ["users/acc"] [("a", TreeVal.leaf ComputedObject.image)] "pre" "zzz"
        = (GEEEvent.createFolder ("users/acc" ++ "/" ++ "pre")
            :: specEvents [("a", TreeVal.leaf ComputedObject.image)] "pre"
                ("users/acc" ++ "/" ++ "pre"),
           Except.ok ("users/acc" ++ "/" ++ "pre")) :=
  ⟨by simp [noOtherList],
    claim_C7_init_tree_structure.1 "users/acc" []
      [("a", TreeVal.leaf ComputedObject.image)] "pre" "zzz" (by simp [noOtherList])⟩

/-- C9: the `root` argument of `init_tree` has no effect on the result:
the source overwrites it with the account's first registered root before
any use, so any two calls differing only in `root` coincide. -/
theorem claim_C9_root_argument_unused (roots : List String)
    (struct : List (String × TreeVal)) (pfx r1 r2 : String) :
    init_tree roots struct pfx r1 = init_tree roots struct pfx r2 := rfl
